import Mathlib

set_option maxRecDepth 20000

/-!
Verification of the invoice upload/extraction pipeline of the cashflow
backend (src/server.js) and of its invoice store (src/db.js).

The JavaScript code is shallowly embedded:

* JS numbers are modelled by `JsNum`: an exact rational for finite values,
  plus the IEEE special values `inf`/`nan`.  Finite values are kept exact
  (binary-double rounding of in-range values is not modelled; no property
  below depends on it), while decimal-literal overflow to `Infinity` at the
  IEEE `round-to-nearest` boundary `2^1024 - 2^970` is modelled, because the
  code's amount handling distinguishes `NaN` from infinite values.
* JS strings are Lean `String`s; the handful of string operations the code
  uses (`trim`, `split`, `join`, `toLowerCase`, `includes`, `startsWith`,
  `path.extname`) are modelled over the underlying character lists.
  `trim`/`toLowerCase` are modelled on the whitespace/letter ranges the
  properties exercise (ASCII); JS's extra Unicode cases are out of scope.
* Host-dependent effects are explicit parameters: the result of
  `fs.promises.readFile` and of `pdf-parse` are `Except` inputs, the current
  date enters as the two ISO strings the handler derives from it, `new Date`
  string parsing (implementation-defined in JS) is a `String → Option String`
  parameter returning the `toISOString().slice(0, 10)` of a successfully
  parsed date, and the AI extractor `extractInvoiceFromText` (whose module is
  not part of the sources) is an `Except` input covering success, `null`, and
  a thrown exception.
* JS objects whose fields may be absent (`undefined`) become structures of
  `Option`-typed fields; `undefined` is `none`, and JS truthiness on strings
  (`"" `falsy) is modelled explicitly where the code relies on it.
-/

namespace Cashflow

/-- A JavaScript number: an exact finite rational, a signed infinity
(`inf true` is `+Infinity`), or `NaN`. -/
inductive JsNum where
  | num (q : ℚ)
  | inf (pos : Bool)
  | nan
deriving DecidableEq

/-- The JS `Number.isNaN` test. -/
def JsNum.isNaN : JsNum → Bool
  | .nan => true
  | _ => false

/-- The JS `Number.isFinite` test. -/
def JsNum.isFinite : JsNum → Bool
  | .num _ => true
  | _ => false

/-- The value is not negative: a nonnegative rational or `+Infinity`
(`NaN` is not nonnegative). -/
def JsNum.Nonneg : JsNum → Prop
  | .num q => 0 ≤ q
  | .inf b => b = true
  | .nan => False

instance : DecidablePred JsNum.Nonneg := fun n =>
  match n with
  | .num q => inferInstanceAs (Decidable (0 ≤ q))
  | .inf b => inferInstanceAs (Decidable (b = true))
  | .nan => inferInstanceAs (Decidable False)

/-- A JavaScript value as far as the merge's `typeof` guards care:
a number or a string. -/
inductive JsVal where
  | vnum (n : JsNum)
  | vstr (s : String)
deriving DecidableEq

/-! ## String helpers (JS string methods used by `server.js`) -/

/-- The two separator characters of the heuristic extractor's
`line.split(/[:\x2d]/)`. -/
def isSep (c : Char) : Bool := c == ':' || c == '-'

/-- Whitespace for `String.prototype.trim` (ASCII fragment). -/
def isWs (c : Char) : Bool := c.isWhitespace

/-- Remove leading and trailing whitespace from a character list. -/
def trimWs (cs : List Char) : List Char :=
  ((cs.dropWhile isWs).reverse.dropWhile isWs).reverse

/-- Model of `String.prototype.trim`. -/
def jsTrim (s : String) : String := ⟨trimWs s.data⟩

/-- Model of `String.prototype.toLowerCase` (ASCII fragment). -/
def jsLower (s : String) : String := ⟨s.data.map Char.toLower⟩

/-- Model of `haystack.includes(needle)`. -/
def jsIncludes (haystack needle : String) : Bool :=
  decide (needle.data <:+: haystack.data)

/-- Model of `s.startsWith(pre)`. -/
def jsStartsWith (s pre : String) : Bool :=
  pre.data.isPrefixOf s.data

/-- JS `String.prototype.split` with a single-character class: keeps empty
pieces, so the result always has `count of separators + 1` parts. -/
def splitOnPred (p : Char → Bool) : List Char → List (List Char)
  | [] => [[]]
  | c :: cs =>
    if p c then [] :: splitOnPred p cs
    else
      match splitOnPred p cs with
      | [] => [[c]]
      | h :: t => (c :: h) :: t

/-- Model of `parts.join(":")` on character lists. -/
def joinColon : List (List Char) → List Char
  | [] => []
  | x :: xs =>
    match xs with
    | [] => x
    | _ :: _ => x ++ ':' :: joinColon xs

/-- Drop one trailing carriage return, if present. -/
def stripCr (cs : List Char) : List Char :=
  if cs.getLast? == some '\r' then cs.dropLast else cs

/-- Model of `text.split(/\r?\n/)`: split on newlines, consuming one carriage return
directly before each newline (a carriage return not followed by a newline,
in particular at the end of the text, stays). -/
def splitLines (text : String) : List String :=
  let ps := splitOnPred (· == '\n') text.data
  ps.dropLast.map (fun l => (⟨stripCr l⟩ : String)) ++ [⟨ps.getLastD []⟩]

/-- Index of the last `'.'` of a character list, if any. -/
def lastDotIdx (cs : List Char) : Option Nat :=
  match cs.reverse.findIdx? (· == '.') with
  | none => none
  | some r => some (cs.length - 1 - r)

/-- Node's `path.extname` (posix): the substring of the last path component
from its last dot, except that a leading dot, a component without dots, and
the component `".."` yield the empty string. -/
def extname (p : String) : String :=
  let base := (splitOnPred (· == '/') p.data).getLastD []
  if base == ['.', '.'] then ""
  else
    match lastDotIdx base with
    | none => ""
    | some i => if i == 0 then "" else ⟨base.drop i⟩

/-- JS `a || b` on possibly-absent strings: an absent or empty `a` is falsy. -/
def jsOrS : Option String → Option String → Option String
  | some s, b => if s == "" then b else some s
  | none, b => b

/-! ## Text acquisition (`server.js` lines 183-236) -/

/-- The uploaded file as the handler sees it: `req.file.originalname` and
`req.file.mimetype` (an absent mimetype is the empty string, matching the
code's `req.file.mimetype || ""`). -/
structure UploadedFile where
  originalname : String
  mimetype : String
deriving DecidableEq

/-- The synthetic placeholder text used when no content can be read. -/
def placeholderText (name : String) : String :=
  "Uploaded invoice file: " ++ name ++ ". Extract key invoice details."

/-- From `server.js` lines 202-209: lower-case the declared mimetype and the
filename extension and decide whether to read the file as UTF-8 text. -/
def shouldTreatAsText (mimetype0 originalname : String) : Bool :=
  let mimetype := jsLower mimetype0
  let ext := jsLower (extname originalname)
  jsStartsWith mimetype "text/" || mimetype == "application/octet-stream" ||
    ext == ".txt" || ext == ".csv" || ext == ".json"

/-- From `server.js` lines 201-236: derive `rawText` from the upload.
`readRes` is the outcome of `fs.promises.readFile(path, "utf8")`; `pdfRes`
is the outcome of `pdf-parse` (`.error` also covers the library being
unavailable), carrying the possibly-absent `pdfData.text`. -/
def acquireText (f : UploadedFile) (readRes : Except Unit String)
    (pdfRes : Except Unit (Option String)) : String :=
  let mimetype := jsLower f.mimetype
  if shouldTreatAsText f.mimetype f.originalname then
    match readRes with
    | .ok s => s
    | .error _ => placeholderText f.originalname
  else if jsIncludes mimetype "pdf" then
    match pdfRes with
    | .ok t => t.getD ""
    | .error _ => placeholderText f.originalname
  else placeholderText f.originalname

/-! ## Heuristic extractor (`server.js` lines 240-270) -/

/-- The extractor's `findValue(label)` over the pre-split lines: find the first line whose
lower-cased text contains the (already lower-case) label, split it on `:`
and `-`, and if there was at least one separator return everything after the
first one re-joined with `":"` and trimmed. -/
def findValue (lines : List String) (label : String) : Option String :=
  match lines.find? (fun l => jsIncludes (jsLower l) label) with
  | none => none
  | some line =>
    match splitOnPred isSep line.data with
    | [] => none
    | _ :: rest => if rest.isEmpty then none else some (jsTrim ⟨joinColon rest⟩)

/-- Digit list to natural number (the digits come from `takeWhile isDigit`). -/
def digitsToNat (ds : List Char) : Nat :=
  ds.foldl (fun a c => 10 * a + (c.toNat - 48)) 0

/-- JS `parseFloat` restricted to the alphabet the code feeds it (the
cleaned amount strings contain only digits, `.` and `-`): an optional sign,
then a decimal literal; no parsable prefix gives `NaN`, and a magnitude at or
beyond the IEEE round-to-infinity boundary gives a signed infinity.  Finite
values are kept exact. -/
def parseFloatM (s : String) : JsNum :=
  let cs := s.data
  let neg := cs.headD ' ' == '-'
  let rest := if neg || cs.headD ' ' == '+' then cs.tail else cs
  let intD := rest.takeWhile Char.isDigit
  let rest2 := rest.drop intD.length
  let fracD :=
    match rest2 with
    | '.' :: t => t.takeWhile Char.isDigit
    | _ => []
  if intD.isEmpty && fracD.isEmpty then .nan
  else
    let den : Nat := 10 ^ fracD.length
    let numN : Nat := digitsToNat intD * den + digitsToNat fracD
    if (2 ^ 1024 - 2 ^ 970) * den ≤ numN then .inf (!neg)
    else .num (if neg then -(mkRat numN den) else mkRat numN den)

/-- The extractor's `parseAmount` (`server.js` lines 254-259): on a present, non-empty value,
strip every character that is not a digit, dot or minus, `parseFloat` the
rest, and drop the result only when it `Number.isNaN`. -/
def parseAmount (value : Option String) : Option JsNum :=
  match value with
  | none => none
  | some v =>
    if v == "" then none
    else
      let cleaned : String := ⟨v.data.filter (fun c => c.isDigit || c == '.' || c == '-')⟩
      let num := parseFloatM cleaned
      if num.isNaN then none else some num

/-- The extractor's `parseDate` (`server.js` lines 249-253).  `dateFn` models the
host-defined `new Date(value)` parse: `none` when the date is invalid,
otherwise the `toISOString().slice(0, 10)` of the result. -/
def parseDate (dateFn : String → Option String) (value : Option String) : Option String :=
  match value with
  | none => none
  | some v => if v == "" then none else dateFn v

/-- The heuristic extractor's partial result (`simpleExtract`'s return
object); an absent field is `none`. -/
structure SimpleResult where
  supplier : Option String := none
  invoice_number : Option String := none
  issue_date : Option String := none
  due_date : Option String := none
  amount : Option JsNum := none
deriving DecidableEq

/-- The heuristic `simpleExtract` (`server.js` lines 240-268): empty text gives the empty
object; otherwise scan the lines for each label (synonyms tried left to
right through JS `||`, so an empty-string hit falls through). -/
def simpleExtract (dateFn : String → Option String) (text : String) : SimpleResult :=
  if text == "" then {}
  else
    let lines := splitLines text
    { supplier := findValue lines "supplier"
      invoice_number :=
        jsOrS (findValue lines "invoice number")
          (jsOrS (findValue lines "invoice no") (findValue lines "inv"))
      issue_date := parseDate dateFn (findValue lines "issue date")
      due_date := parseDate dateFn (findValue lines "due date")
      amount :=
        parseAmount
          (jsOrS (findValue lines "amount")
            (jsOrS (findValue lines "total") (findValue lines "balance"))) }

/-! ## Merge engine (`server.js` lines 183-199 and 280-308) -/

/-- The result object of the AI extractor `extractInvoiceFromText` (its
module is not among the sources; only the shape the merge consumes matters).
String-typed fields are modelled as optional strings: the merge guards them
with `typeof v === "string"` (or truthiness plus `toString()`, the identity
on strings), so a non-string value behaves exactly like an absent one.  The
amount keeps the full number-or-string distinction because the merge's
`typeof === "number"` test on it is load-bearing. -/
structure AiResult where
  supplier : Option String := none
  invoice_number : Option String := none
  issue_date : Option String := none
  due_date : Option String := none
  amount : Option JsVal := none
  status : Option String := none
  category : Option String := none
deriving DecidableEq

/-- The invoice object built by the upload handler.  Each field is
`Option`-typed because a JS object field can in principle be absent; the
fallback invoice populates every one of them. -/
structure JsInvoice where
  supplier : Option String := none
  invoice_number : Option String := none
  issue_date : Option String := none
  due_date : Option String := none
  amount : Option JsNum := none
  status : Option String := none
  category : Option String := none
  source : Option String := none
  week_label : Option String := none
  archived : Option JsNum := none
deriving DecidableEq

/-- The handler's `weekLabelFromDate` (`server.js` line 186). -/
def weekLabelFromDate (date : String) : String := "Week of " ++ date

/-- The handler's `fallbackInvoice` (`server.js` lines 188-199).  `todayISO` and `dueISO`
are `toISO(today)` and `toISO(today + 14 days)`, the two strings the handler
derives from the wall clock. -/
def fallbackInvoice (todayISO dueISO originalname : String) : JsInvoice :=
  { supplier := some "Uploaded invoice"
    invoice_number := some originalname
    issue_date := some todayISO
    due_date := some dueISO
    amount := some (.num 0)
    status := some "Upcoming"
    category := some "Uncategorised"
    source := some "Upload"
    week_label := some (weekLabelFromDate dueISO)
    archived := some (.num 0) }

/-- JS `v || prev` where a present non-empty string is truthy: the shape of
every string-field override in the merge. -/
def truthyOr (v : Option String) (prev : Option String) : Option String :=
  match v with
  | some s => if s == "" then prev else some s
  | none => prev

/-- The heuristic amount override (`server.js` lines 287-289): assign only a
present number that is not `NaN`. -/
def numOverride (v : Option JsNum) (prev : Option JsNum) : Option JsNum :=
  match v with
  | some n => if n.isNaN then prev else some n
  | none => prev

/-- The AI amount override (`server.js` lines 299-300): keep the previous
amount unless the AI value is a number other than `NaN`. -/
def aiNumOverride (v : Option JsVal) (prev : Option JsNum) : Option JsNum :=
  match v with
  | some (.vnum n) => if n.isNaN then prev else some n
  | _ => prev

/-- The week-label rule (`server.js` line 305): when the AI supplied a
(truthy) due date, recompute the label from it; otherwise keep the previous
label. -/
def weekOverride (v : Option String) (prev : Option String) : Option String :=
  match v with
  | some d => if d == "" then prev else some (weekLabelFromDate d)
  | none => prev

/-- The merge (`server.js` lines 280-308): start from the fallback invoice,
apply the heuristic result's overrides (lines 282-290), then, when the AI
returned an object, the AI result's overrides including the week-label rule
(lines 292-308). -/
def mergeInvoice (fb : JsInvoice) (s : SimpleResult) (ai : Option AiResult) : JsInvoice :=
  let m1 : JsInvoice :=
    { fb with
      supplier := truthyOr (s.supplier.map jsTrim) fb.supplier
      invoice_number := truthyOr (s.invoice_number.map jsTrim) fb.invoice_number
      issue_date := truthyOr s.issue_date fb.issue_date
      due_date := truthyOr s.due_date fb.due_date
      amount := numOverride s.amount fb.amount }
  match ai with
  | none => m1
  | some a =>
    { m1 with
      supplier := truthyOr (a.supplier.map jsTrim) m1.supplier
      invoice_number := truthyOr (a.invoice_number.map jsTrim) m1.invoice_number
      issue_date := truthyOr a.issue_date m1.issue_date
      due_date := truthyOr a.due_date m1.due_date
      amount := aiNumOverride a.amount m1.amount
      status := truthyOr (a.status.map jsTrim) m1.status
      category := truthyOr (a.category.map jsTrim) m1.category
      week_label := weekOverride a.due_date m1.week_label }

/-! ## Pipeline orchestration (`server.js` lines 169-331) -/

/-- The extraction pipeline of the upload handler: build the fallback
invoice, acquire the raw text, run the heuristic extractor, run the AI
extractor with its exception caught into a null result (lines 272-278), and
merge.  `aiOut` is the outcome of `extractInvoiceFromText(rawText)`:
`.error` a thrown exception, `.ok none` a null result. -/
def runUploadPipeline (f : UploadedFile) (todayISO dueISO : String)
    (readRes : Except Unit String) (pdfRes : Except Unit (Option String))
    (dateFn : String → Option String)
    (aiOut : Except Unit (Option AiResult)) : JsInvoice :=
  let fb := fallbackInvoice todayISO dueISO f.originalname
  let rawText := acquireText f readRes pdfRes
  let simpleResult := simpleExtract dateFn rawText
  let aiResult : Option AiResult :=
    match aiOut with
    | .ok r => r
    | .error _ => none
  mergeInvoice fb simpleResult aiResult

/-- The two possible responses of the handler once a file reached the
pipeline: the 200 success payload carrying the stored row, or the 500
`"Upload failed to save invoice"` error (lines 310-326). -/
inductive UploadResponse (Row : Type) where
  | success (row : Row)
  | saveError
deriving DecidableEq

/-- The upload handler from the pipeline onwards: run the pipeline, hand the
merged invoice to the storage collaborator (`insertF`), and answer 200 with
the inserted row or 500 on a storage failure. -/
def handleUpload {Row : Type} (f : UploadedFile) (todayISO dueISO : String)
    (readRes : Except Unit String) (pdfRes : Except Unit (Option String))
    (dateFn : String → Option String)
    (aiOut : Except Unit (Option AiResult))
    (insertF : JsInvoice → Except Unit Row) : UploadResponse Row :=
  match insertF (runUploadPipeline f todayISO dueISO readRes pdfRes dateFn aiOut) with
  | .ok row => .success row
  | .error _ => .saveError

/-! ## Invoice store (`src/db.js`) -/

/-- A row of the `invoices` table.  The data columns are nullable (an absent
JS field binds SQL `NULL`); `id` is the integer primary key and `archived`
always holds a number (`insertInvoice` binds `invoice.archived ?? 0`,
`archiveInvoice` sets `1`). -/
structure DbRow where
  id : Nat
  supplier : Option String := none
  invoice_number : Option String := none
  issue_date : Option String := none
  due_date : Option String := none
  amount : Option JsNum := none
  status : Option String := none
  category : Option String := none
  source : Option String := none
  week_label : Option String := none
  archived : JsNum := .num 0
deriving DecidableEq

/-- The database state: the stored rows together with the next value of the
`AUTOINCREMENT` id sequence (sqlite never reuses a value of it). -/
structure Db where
  rows : List DbRow
  nextId : Nat
deriving DecidableEq

/-- Every stored id is below the id sequence: the invariant sqlite's
`AUTOINCREMENT` maintains. -/
def Db.Wf (db : Db) : Prop :=
  ∀ r ∈ db.rows, r.id < db.nextId

instance (db : Db) : Decidable db.Wf :=
  inferInstanceAs (Decidable (∀ r ∈ db.rows, r.id < db.nextId))

/-- Store read `getInvoices` (`db.js` lines 169-175): `SELECT * FROM invoices WHERE
archived = 0`. -/
def getInvoices (db : Db) : List DbRow :=
  db.rows.filter (fun r => r.archived == JsNum.num 0)

/-- Store read `findInvoiceById` (`db.js` lines 177-183): `db.get` returns the first
row satisfying `id = ?`. -/
def findInvoiceById (db : Db) (id : Nat) : Option DbRow :=
  db.rows.find? (fun r => r.id == id)

/-- Store update `markInvoicePaid` (`db.js` lines 185-195): `null` and no change when the
id is absent; otherwise `UPDATE invoices SET status = 'Paid' WHERE id = ?`
followed by re-reading the row. -/
def markInvoicePaid (db : Db) (id : Nat) : Option DbRow × Db :=
  match findInvoiceById db id with
  | none => (none, db)
  | some _ =>
    let db' : Db :=
      { db with
        rows := db.rows.map (fun r => if r.id == id then { r with status := some "Paid" } else r) }
    (findInvoiceById db' id, db')

/-- Store update `archiveInvoice` (`db.js` lines 197-207): `null` and no change when the
id is absent; otherwise `UPDATE invoices SET archived = 1 WHERE id = ?`
followed by re-reading the row. -/
def archiveInvoice (db : Db) (id : Nat) : Option DbRow × Db :=
  match findInvoiceById db id with
  | none => (none, db)
  | some _ =>
    let db' : Db :=
      { db with
        rows := db.rows.map (fun r => if r.id == id then { r with archived := JsNum.num 1 } else r) }
    (findInvoiceById db' id, db')

/-- Store create `insertInvoice` (`db.js` lines 209-234): insert the invoice's fields
(`archived ?? 0`), let the id sequence assign `this.lastID`, and return the
row re-read by that id. -/
def insertInvoice (db : Db) (inv : JsInvoice) : Option DbRow × Db :=
  let row : DbRow :=
    { id := db.nextId
      supplier := inv.supplier
      invoice_number := inv.invoice_number
      issue_date := inv.issue_date
      due_date := inv.due_date
      amount := inv.amount
      status := inv.status
      category := inv.category
      source := inv.source
      week_label := inv.week_label
      archived := inv.archived.getD (.num 0) }
  let db' : Db := { rows := db.rows ++ [row], nextId := db.nextId + 1 }
  (findInvoiceById db' db.nextId, db')

/-- One call against the store: the three mutating operations `db.js`
exports besides reads. -/
inductive DbOp where
  | markPaid (id : Nat)
  | archive (id : Nat)
  | insert (inv : JsInvoice)

/-- State change of one store call. -/
def applyOp (db : Db) : DbOp → Db
  | .markPaid id => (markInvoicePaid db id).2
  | .archive id => (archiveInvoice db id).2
  | .insert inv => (insertInvoice db inv).2

/-- State after a sequence of store calls. -/
def execOps (db : Db) : List DbOp → Db
  | [] => db
  | op :: ops => execOps (applyOp db op) ops

/-! ## Statement-side notions

Definitions used to *state* the verified properties: the merge's per-field
validity notion (spec §4.4: a string field is valid when non-empty after
trimming, the numeric field when it is a number that is not `NaN`; dates are
accepted as given non-empty strings), and the complete-record predicate. -/

/-- The valid value, if any, that a possibly-absent string contributes to a
trim-guarded field: its trim, when non-empty. -/
def validStr (v : Option String) : Option String :=
  match v with
  | some s => if jsTrim s == "" then none else some (jsTrim s)
  | none => none

/-- The valid value, if any, of a date field: the string itself, when
present and non-empty (dates are passed through untrimmed). -/
def validDate (v : Option String) : Option String :=
  match v with
  | some s => if s == "" then none else some s
  | none => none

/-- The valid value, if any, of the heuristic amount: a present number that
is not `NaN`. -/
def hValidAmt (v : Option JsNum) : Option JsNum :=
  match v with
  | some n => if n.isNaN then none else some n
  | none => none

/-- The valid value, if any, of the AI amount: a present number that is not
`NaN` (strings never qualify). -/
def aiValidAmt (v : Option JsVal) : Option JsNum :=
  match v with
  | some (.vnum n) => if n.isNaN then none else some n
  | _ => none

/-- Every field of the invoice record carries a value. -/
def AllSet (inv : JsInvoice) : Prop :=
  inv.supplier.isSome ∧ inv.invoice_number.isSome ∧ inv.issue_date.isSome ∧
    inv.due_date.isSome ∧ inv.amount.isSome ∧ inv.status.isSome ∧
    inv.category.isSome ∧ inv.source.isSome ∧ inv.week_label.isSome ∧
    inv.archived.isSome

/-- Modelled from the spec: the text-acquisition trigger as the spec words
it — plain text, or a generic binary stream *and* a text-like extension
(`.txt`, `.csv`, `.json`).  Stated for comparison with the implementation's
`shouldTreatAsText`. -/
def specTreatAsText (mimetype0 originalname : String) : Bool :=
  let mimetype := jsLower mimetype0
  let ext := jsLower (extname originalname)
  jsStartsWith mimetype "text/" ||
    (mimetype == "application/octet-stream" &&
      (ext == ".txt" || ext == ".csv" || ext == ".json"))

/-- Modelled from the spec: the raw field value the claim predicts for a
matched line — everything after the first `:` or `-` separator, trimmed,
with the rest of the line intact. -/
def specRawValue (line : String) : Option String :=
  if line.data.any isSep then
    some (jsTrim ⟨(line.data.dropWhile (fun c => !isSep c)).tail⟩)
  else none

/-- Separator characters replaced by `':'`, other characters kept. -/
def sepToColon (c : Char) : Char := if isSep c then ':' else c

/-- Everything after the first `':'` of a character list (empty when there
is none). -/
def afterFirstColon (cs : List Char) : List Char :=
  (cs.dropWhile (fun c => c != ':')).tail

/-- A fallback invoice at a fixed date and filename, used by the concrete
merge examples. -/
def exFb : JsInvoice := fallbackInvoice "2025-01-01" "2025-01-15" "invoice.txt"

/-! ## Properties of the override combinators -/

theorem truthyOr_trim_eq (v prev : Option String) :
    truthyOr (v.map jsTrim) prev = (validStr v).or prev := by
  cases v with
  | none => rfl
  | some s =>
    simp only [Option.map, truthyOr, validStr]
    cases h : (jsTrim s == "") <;> simp [h, Option.or]

theorem truthyOr_date_eq (v prev : Option String) :
    truthyOr v prev = (validDate v).or prev := by
  cases v with
  | none => rfl
  | some s =>
    simp only [truthyOr, validDate]
    cases h : (s == "") <;> simp [h, Option.or]

theorem numOverride_eq (v : Option JsNum) (prev : Option JsNum) :
    numOverride v prev = (hValidAmt v).or prev := by
  cases v with
  | none => rfl
  | some n =>
    simp only [numOverride, hValidAmt]
    cases h : n.isNaN <;> simp [h, Option.or]

theorem aiNumOverride_eq (v : Option JsVal) (prev : Option JsNum) :
    aiNumOverride v prev = (aiValidAmt v).or prev := by
  cases v with
  | none => rfl
  | some x =>
    cases x with
    | vstr s => rfl
    | vnum n =>
      simp only [aiNumOverride, aiValidAmt]
      cases h : n.isNaN <;> simp [h, Option.or]

theorem truthyOr_isSome (v prev : Option String) (h : prev.isSome) :
    (truthyOr v prev).isSome := by
  cases v with
  | none => exact h
  | some s =>
    simp only [truthyOr]
    cases hs : (s == "") <;> simp [h]

theorem numOverride_isSome (v : Option JsNum) (prev : Option JsNum) (h : prev.isSome) :
    (numOverride v prev).isSome := by
  cases v with
  | none => exact h
  | some n =>
    simp only [numOverride]
    cases hn : n.isNaN <;> simp [h]

theorem aiNumOverride_isSome (v : Option JsVal) (prev : Option JsNum) (h : prev.isSome) :
    (aiNumOverride v prev).isSome := by
  cases v with
  | none => exact h
  | some x =>
    cases x with
    | vstr s => exact h
    | vnum n =>
      simp only [aiNumOverride]
      cases hn : n.isNaN <;> simp [h]

theorem weekOverride_isSome (v prev : Option String) (h : prev.isSome) :
    (weekOverride v prev).isSome := by
  cases v with
  | none => exact h
  | some d =>
    simp only [weekOverride]
    cases hd : (d == "") <;> simp [h]

theorem mergeInvoice_allSet (fb : JsInvoice) (s : SimpleResult) (ai : Option AiResult)
    (h : AllSet fb) : AllSet (mergeInvoice fb s ai) := by
  obtain ⟨h1, h2, h3, h4, h5, h6, h7, h8, h9, h10⟩ := h
  cases ai with
  | none =>
    exact ⟨truthyOr_isSome _ _ h1, truthyOr_isSome _ _ h2, truthyOr_isSome _ _ h3,
      truthyOr_isSome _ _ h4, numOverride_isSome _ _ h5, h6, h7, h8, h9, h10⟩
  | some a =>
    exact ⟨truthyOr_isSome _ _ (truthyOr_isSome _ _ h1),
      truthyOr_isSome _ _ (truthyOr_isSome _ _ h2),
      truthyOr_isSome _ _ (truthyOr_isSome _ _ h3),
      truthyOr_isSome _ _ (truthyOr_isSome _ _ h4),
      aiNumOverride_isSome _ _ (numOverride_isSome _ _ h5),
      truthyOr_isSome _ _ h6, truthyOr_isSome _ _ h7, h8,
      weekOverride_isSome _ _ h9, h10⟩

/-! ## Claim theorems -/

/-- Claim C1: for every uploaded file — any declared media type, any
filename, any outcome of reading its bytes (including a failed read), any
PDF-parse outcome, any date-parsing behaviour and any AI outcome — the
pipeline's merged invoice has every one of its ten fields set to some value:
the merge starts from the fully-populated fallback invoice and only ever
replaces a present value. -/
theorem upload_pipeline_complete (f : UploadedFile) (todayISO dueISO : String)
    (readRes : Except Unit String) (pdfRes : Except Unit (Option String))
    (dateFn : String → Option String) (aiOut : Except Unit (Option AiResult)) :
    AllSet (runUploadPipeline f todayISO dueISO readRes pdfRes dateFn aiOut) :=
  mergeInvoice_allSet _ _ _
    ⟨rfl, rfl, rfl, rfl, rfl, rfl, rfl, rfl, rfl, rfl⟩

/-- Claim C2: for each of supplier, invoice number, issue date, due date and
amount, the merged value is the AI extractor's valid value when present,
else the heuristic extractor's valid value when present, else the fallback
invoice's value (string fields are stored trimmed, the validity the code
enforces); concretely, with fallback amount 0: heuristic 500 and AI absent
merge to 500, AI 750 merges to 750, both absent merge to 0. -/
theorem merge_field_precedence :
    (∀ (fb : JsInvoice) (s : SimpleResult) (ai : Option AiResult),
      (mergeInvoice fb s ai).supplier
          = ((ai.bind fun a => validStr a.supplier).or ((validStr s.supplier).or fb.supplier)) ∧
      (mergeInvoice fb s ai).invoice_number
          = ((ai.bind fun a => validStr a.invoice_number).or
              ((validStr s.invoice_number).or fb.invoice_number)) ∧
      (mergeInvoice fb s ai).issue_date
          = ((ai.bind fun a => validDate a.issue_date).or
              ((validDate s.issue_date).or fb.issue_date)) ∧
      (mergeInvoice fb s ai).due_date
          = ((ai.bind fun a => validDate a.due_date).or
              ((validDate s.due_date).or fb.due_date)) ∧
      (mergeInvoice fb s ai).amount
          = ((ai.bind fun a => aiValidAmt a.amount).or
              ((hValidAmt s.amount).or fb.amount))) ∧
    (mergeInvoice exFb { amount := some (.num 500) } (some {})).amount = some (.num 500) ∧
    (mergeInvoice exFb {} (some { amount := some (.vnum (.num 750)) })).amount
        = some (.num 750) ∧
    (mergeInvoice exFb {} (some {})).amount = some (.num 0) := by
  refine ⟨fun fb s ai => ?_, by decide, by decide, by decide⟩
  cases ai with
  | none =>
    refine ⟨?_, ?_, ?_, ?_, ?_⟩ <;> simp only [mergeInvoice]
    · rw [truthyOr_trim_eq]; rfl
    · rw [truthyOr_trim_eq]; rfl
    · rw [truthyOr_date_eq]; rfl
    · rw [truthyOr_date_eq]; rfl
    · rw [numOverride_eq]; rfl
  | some a =>
    refine ⟨?_, ?_, ?_, ?_, ?_⟩ <;> simp only [mergeInvoice]
    · rw [truthyOr_trim_eq, truthyOr_trim_eq]; rfl
    · rw [truthyOr_trim_eq, truthyOr_trim_eq]; rfl
    · rw [truthyOr_date_eq, truthyOr_date_eq]; rfl
    · rw [truthyOr_date_eq, truthyOr_date_eq]; rfl
    · rw [aiNumOverride_eq, numOverride_eq]; rfl

/-- Claim C3: the merge recomputes the week label as `"Week of {date}"` from
the final due date exactly when the AI supplied a (non-empty) due date — in
that case the merged due date is the AI's, so the label is derived from it;
when the AI supplied no due date the label stays the fallback's, even when a
heuristic due date overrides the merged due date. -/
theorem merge_week_label_rule (fb : JsInvoice) (s : SimpleResult) :
    (∀ (a : AiResult) (d : String), a.due_date = some d → d ≠ "" →
        (mergeInvoice fb s (some a)).due_date = some d ∧
        (mergeInvoice fb s (some a)).week_label = some (weekLabelFromDate d)) ∧
    (∀ ai : Option AiResult, (ai.bind fun a => validDate a.due_date) = none →
        (mergeInvoice fb s ai).week_label = fb.week_label) ∧
    (∀ (ai : Option AiResult) (d : String), (ai.bind fun a => validDate a.due_date) = none →
        s.due_date = some d → d ≠ "" →
        (mergeInvoice fb s ai).due_date = some d) := by
  refine ⟨?_, ?_, ?_⟩
  · intro a d hd hne
    constructor
    · simp [mergeInvoice, hd, truthyOr, hne]
    · simp [mergeInvoice, hd, weekOverride, hne]
  · intro ai hv
    cases ai with
    | none => simp [mergeInvoice]
    | some a =>
      cases hd : a.due_date with
      | none => simp [mergeInvoice, weekOverride, hd]
      | some d =>
        simp only [Option.bind, hd, validDate] at hv
        have hde : d = "" := by
          by_cases h : d = ""
          · exact h
          · simp [h] at hv
        subst hde
        simp [mergeInvoice, weekOverride, hd]
  · intro ai d hv hsd hne
    have hstep : truthyOr s.due_date fb.due_date = some d := by
      simp [truthyOr, hsd, hne]
    cases ai with
    | none =>
      simp only [mergeInvoice]
      rw [hstep]
    | some a =>
      cases hd : a.due_date with
      | none =>
        simp only [mergeInvoice, hd]
        rw [hstep]
        rfl
      | some d' =>
        simp only [Option.bind, hd, validDate] at hv
        have hde : d' = "" := by
          by_cases h : d' = ""
          · exact h
          · simp [h] at hv
        subst hde
        simp only [mergeInvoice, hd]
        rw [hstep]
        simp [truthyOr]

/-- Witness for C3 at a concrete merge: an AI due date recomputes the label,
a heuristic-only due date overrides the date but leaves the label. -/
theorem merge_week_label_rule_w :
    (mergeInvoice exFb { due_date := some "2025-02-02" }
        (some { due_date := some "2025-01-10" })).week_label
      = some "Week of 2025-01-10" ∧
    (mergeInvoice exFb { due_date := some "2025-02-02" } none).due_date
      = some "2025-02-02" ∧
    (mergeInvoice exFb { due_date := some "2025-02-02" } none).week_label
      = exFb.week_label :=
  ⟨((merge_week_label_rule exFb _).1 _ "2025-01-10" rfl (by decide)).2,
   (merge_week_label_rule exFb _).2.2 none "2025-02-02" rfl rfl (by decide),
   (merge_week_label_rule exFb _).2.1 none rfl⟩

/-- Claim C8: a thrown AI extraction is caught and identical to a null AI
result — the pipeline still produces its merged invoice; and the response of
the handler is the 500 save-error exactly when the storage create fails,
otherwise the 200 success carrying the inserted row. -/
theorem ai_failure_contained :
    (∀ (f : UploadedFile) (todayISO dueISO : String) (readRes : Except Unit String)
        (pdfRes : Except Unit (Option String)) (dateFn : String → Option String),
        runUploadPipeline f todayISO dueISO readRes pdfRes dateFn (.error ())
          = runUploadPipeline f todayISO dueISO readRes pdfRes dateFn (.ok none)) ∧
    (∀ (Row : Type) (f : UploadedFile) (todayISO dueISO : String)
        (readRes : Except Unit String) (pdfRes : Except Unit (Option String))
        (dateFn : String → Option String) (aiOut : Except Unit (Option AiResult))
        (insertF : JsInvoice → Except Unit Row),
        (handleUpload f todayISO dueISO readRes pdfRes dateFn aiOut insertF = .saveError ↔
          insertF (runUploadPipeline f todayISO dueISO readRes pdfRes dateFn aiOut)
            = .error ()) ∧
        (∀ row,
          insertF (runUploadPipeline f todayISO dueISO readRes pdfRes dateFn aiOut) = .ok row →
          handleUpload f todayISO dueISO readRes pdfRes dateFn aiOut insertF
            = .success row)) := by
  constructor
  · intro f todayISO dueISO readRes pdfRes dateFn
    rfl
  · intro Row f todayISO dueISO readRes pdfRes dateFn aiOut insertF
    constructor
    · cases h : insertF (runUploadPipeline f todayISO dueISO readRes pdfRes dateFn aiOut) with
      | ok row => simp [handleUpload, h]
      | error e => simp [handleUpload, h]
    · intro row h
      simp [handleUpload, h]

/-- Witness for C8 at concrete inputs: a failing store yields the 500
save-error, a succeeding store the 200 success. -/
theorem ai_failure_contained_w :
    handleUpload ⟨"a.txt", "text/plain"⟩ "2025-01-01" "2025-01-15" (.ok "x")
        (.error ()) (fun _ => none) (.error ())
        (fun _ => (.error () : Except Unit Unit)) = .saveError ∧
    handleUpload ⟨"a.txt", "text/plain"⟩ "2025-01-01" "2025-01-15" (.ok "x")
        (.error ()) (fun _ => none) (.error ())
        (fun _ => (.ok () : Except Unit Unit)) = .success () :=
  ⟨((ai_failure_contained.2 Unit _ _ _ _ _ _ _ _).1).mpr rfl,
   (ai_failure_contained.2 Unit _ _ _ _ _ _ _ _).2 () rfl⟩

/-- Claim C4 counterexample: a generic binary stream whose extension is
outside the text-like set — `"application/octet-stream"` with
`"foo.bin"` — *is* treated as text by the code (the mimetype alone
suffices), and the file's bytes, not the placeholder, become the raw text;
the spec's conjunctive condition says no read happens there. -/
theorem treat_as_text_cex :
    shouldTreatAsText "application/octet-stream" "foo.bin" = true ∧
    specTreatAsText "application/octet-stream" "foo.bin" = false ∧
    acquireText ⟨"foo.bin", "application/octet-stream"⟩ (.ok "RAW BYTES AS TEXT")
        (.error ()) = "RAW BYTES AS TEXT" ∧
    "RAW BYTES AS TEXT" ≠ placeholderText "foo.bin" := by decide

/-- Claim C4 amended: the UTF-8 read is attempted when the lower-cased
declared media type starts with `"text/"`, or equals
`"application/octet-stream"` (any extension), or the lower-cased extension
is `.txt`, `.csv` or `.json` (any media type) — a plain disjunction, not
the spec's conjunction; when this trigger holds a successful read's text is
used, and when it fails and the media type does not contain `"pdf"` the
placeholder is used without a read. -/
theorem treat_as_text_amended (m n : String) (readRes : Except Unit String)
    (pdfRes : Except Unit (Option String)) :
    (shouldTreatAsText m n =
      (jsStartsWith (jsLower m) "text/" || jsLower m == "application/octet-stream" ||
        jsLower (extname n) == ".txt" || jsLower (extname n) == ".csv" ||
        jsLower (extname n) == ".json")) ∧
    (shouldTreatAsText m n = true → ∀ s, readRes = .ok s →
      acquireText ⟨n, m⟩ readRes pdfRes = s) ∧
    (shouldTreatAsText m n = false → jsIncludes (jsLower m) "pdf" = false →
      acquireText ⟨n, m⟩ readRes pdfRes = placeholderText n) := by
  refine ⟨rfl, ?_, ?_⟩
  · intro h s hs
    subst hs
    simp [acquireText, h]
  · intro h hpdf
    simp [acquireText, h, hpdf]

/-- Witness for the amended C4 at the spec's own example: a generic binary
stream named `"foo.csv"` gets the UTF-8 read, and its content is used. -/
theorem treat_as_text_amended_w :
    shouldTreatAsText "application/octet-stream" "foo.csv" = true ∧
    acquireText ⟨"foo.csv", "application/octet-stream"⟩ (.ok "supplier: A") (.error ())
      = "supplier: A" :=
  ⟨by decide,
   (treat_as_text_amended "application/octet-stream" "foo.csv" (.ok "supplier: A")
      (.error ())).2.1 (by decide) "supplier: A" rfl⟩

/-- Claim C6 counterexample: an AI amount of `+Infinity` is *not* treated as
absent — the merge's guard only rejects `NaN` — so it overrides the fallback
amount `0` and the merged amount is not finite. -/
theorem merge_amount_cex :
    (mergeInvoice exFb {} (some { amount := some (.vnum (.inf true)) })).amount
        = some (JsNum.inf true) ∧
    (JsNum.inf true).isFinite = false ∧
    exFb.amount = some (JsNum.num 0) := by decide

theorem parseAmount_not_nan (v : Option String) (n : JsNum)
    (h : parseAmount v = some n) : n.isNaN = false := by
  cases v with
  | none => exact absurd h (by simp [parseAmount])
  | some s =>
    simp only [parseAmount] at h
    by_cases he : (s == "") = true
    · rw [if_pos he] at h
      exact absurd h (by simp)
    · rw [if_neg he] at h
      by_cases hn : (parseFloatM ⟨s.data.filter fun c => c.isDigit || c == '.' || c == '-'⟩).isNaN = true
      · rw [if_pos hn] at h
        exact absurd h (by simp)
      · rw [if_neg hn] at h
        cases h
        exact Bool.not_eq_true _ |>.mp hn

theorem numOverride_not_nan (v : Option JsNum) (prev : Option JsNum)
    (hp : ∀ m, prev = some m → m.isNaN = false) (n : JsNum)
    (h : numOverride v prev = some n) : n.isNaN = false := by
  cases v with
  | none => exact hp n h
  | some m =>
    simp only [numOverride] at h
    by_cases hm : m.isNaN = true
    · rw [if_pos hm] at h
      exact hp n h
    · rw [if_neg hm] at h
      cases h
      exact Bool.not_eq_true _ |>.mp hm

theorem aiNumOverride_not_nan (v : Option JsVal) (prev : Option JsNum)
    (hp : ∀ m, prev = some m → m.isNaN = false) (n : JsNum)
    (h : aiNumOverride v prev = some n) : n.isNaN = false := by
  cases v with
  | none => exact hp n h
  | some x =>
    cases x with
    | vstr s => exact hp n h
    | vnum m =>
      simp only [aiNumOverride] at h
      by_cases hm : m.isNaN = true
      · rw [if_pos hm] at h
        exact hp n h
      · rw [if_neg hm] at h
        cases h
        exact Bool.not_eq_true _ |>.mp hm

/-- Claim C6 amended: only `NaN` is rejected, not every non-finite value.
The heuristic extractor never yields a `NaN` amount, and the pipeline's
merged amount is never `NaN` (the AI guard keeps the previous amount for
`NaN` or non-number values); but an infinite amount passes both guards, as
the counterexample shows, so the merged amount need not be finite. -/
theorem merged_amount_never_nan :
    (∀ (dateFn : String → Option String) (text : String) (n : JsNum),
      (simpleExtract dateFn text).amount = some n → n.isNaN = false) ∧
    (∀ (f : UploadedFile) (todayISO dueISO : String) (readRes : Except Unit String)
        (pdfRes : Except Unit (Option String)) (dateFn : String → Option String)
        (aiOut : Except Unit (Option AiResult)) (n : JsNum),
      (runUploadPipeline f todayISO dueISO readRes pdfRes dateFn aiOut).amount = some n →
      n.isNaN = false) := by
  constructor
  · intro dateFn text n h
    simp only [simpleExtract] at h
    by_cases ht : (text == "") = true
    · rw [if_pos ht] at h
      exact absurd h (by simp)
    · rw [if_neg ht] at h
      exact parseAmount_not_nan _ n h
  · intro f todayISO dueISO readRes pdfRes dateFn aiOut n h
    have hfb : ∀ m, (fallbackInvoice todayISO dueISO f.originalname).amount = some m →
        m.isNaN = false := by
      intro m hm
      cases hm
      rfl
    cases aiOut with
    | error e =>
      simp only [runUploadPipeline, mergeInvoice] at h
      exact numOverride_not_nan _ _ hfb n h
    | ok r =>
      cases r with
      | none =>
        simp only [runUploadPipeline, mergeInvoice] at h
        exact numOverride_not_nan _ _ hfb n h
      | some a =>
        simp only [runUploadPipeline, mergeInvoice] at h
        exact aiNumOverride_not_nan _ _ (numOverride_not_nan _ _ hfb) n h

/-- Witness for the amended C6: a concrete heuristic amount and a concrete
pipeline run both yield non-`NaN` amounts. -/
theorem merged_amount_never_nan_w :
    (simpleExtract (fun _ => none) "amount: 500").amount = some (JsNum.num 500) ∧
    (JsNum.num 500).isNaN = false ∧
    (runUploadPipeline ⟨"a.txt", "text/plain"⟩ "2025-01-01" "2025-01-15"
        (.ok "total: 7") (.error ()) (fun _ => none) (.ok none)).amount
      = some (JsNum.num 7) ∧
    (JsNum.num 7).isNaN = false :=
  ⟨by decide, merged_amount_never_nan.1 (fun _ => none) "amount: 500" _ (by decide),
   by decide,
   merged_amount_never_nan.2 ⟨"a.txt", "text/plain"⟩ "2025-01-01" "2025-01-15"
     (.ok "total: 7") (.error ()) (fun _ => none) (.ok none) _ (by decide)⟩

/-! ## Split/join lemmas for the heuristic extractor -/

theorem splitOnPred_ne_nil (p : Char → Bool) (cs : List Char) : splitOnPred p cs ≠ [] := by
  induction cs with
  | nil => simp [splitOnPred]
  | cons c cs ih =>
    simp only [splitOnPred]
    cases hp : p c
    · simp only [Bool.false_eq_true, if_false]
      rcases h : splitOnPred p cs with _ | ⟨h1, t⟩
      · exact absurd h ih
      · simp
    · simp

theorem mem_splitOnPred_not (p : Char → Bool) (cs : List Char) (part : List Char)
    (hpart : part ∈ splitOnPred p cs) (c : Char) (hc : c ∈ part) : p c = false := by
  induction cs generalizing part with
  | nil =>
    simp only [splitOnPred, List.mem_singleton] at hpart
    subst hpart
    simp at hc
  | cons d cs ih =>
    simp only [splitOnPred] at hpart
    cases hd : p d
    · rw [hd] at hpart
      simp only [Bool.false_eq_true, if_false] at hpart
      rcases hsp : splitOnPred p cs with _ | ⟨h1, t⟩
      · exact absurd hsp (splitOnPred_ne_nil p cs)
      · rw [hsp] at hpart
        rcases List.mem_cons.mp hpart with heq | hmem
        · subst heq
          rcases List.mem_cons.mp hc with hceq | hcmem
          · subst hceq; exact hd
          · exact ih h1 (hsp ▸ List.mem_cons_self h1 t) hcmem
        · exact ih part (hsp ▸ List.mem_cons_of_mem h1 hmem) hc
    · rw [hd] at hpart
      simp only [if_true] at hpart
      rcases List.mem_cons.mp hpart with heq | hmem
      · subst heq; simp at hc
      · exact ih part hmem hc

theorem splitOnPred_all_false (p : Char → Bool) (cs : List Char)
    (h : ∀ c ∈ cs, p c = false) : splitOnPred p cs = [cs] := by
  induction cs with
  | nil => rfl
  | cons d cs ih =>
    have hd : p d = false := h d (List.mem_cons_self d cs)
    have hrest : splitOnPred p cs = [cs] := ih fun c hc => h c (List.mem_cons_of_mem d hc)
    simp only [splitOnPred, hd, Bool.false_eq_true, if_false, hrest]

theorem map_sepToColon_eq (cs : List Char) :
    cs.map sepToColon = joinColon (splitOnPred isSep cs) := by
  induction cs with
  | nil => rfl
  | cons d cs ih =>
    simp only [List.map, splitOnPred]
    rcases hsp : splitOnPred isSep cs with _ | ⟨h1, t⟩
    · exact absurd hsp (splitOnPred_ne_nil _ _)
    · rw [hsp] at ih
      cases hd : isSep d
      · have hdc : sepToColon d = d := by simp [sepToColon, hd]
        have hjc : joinColon ((d :: h1) :: t) = d :: joinColon (h1 :: t) := by
          cases t <;> rfl
        change sepToColon d :: List.map sepToColon cs = joinColon ((d :: h1) :: t)
        rw [hdc, hjc, ih]
      · have hdc : sepToColon d = ':' := by simp [sepToColon, hd]
        change sepToColon d :: List.map sepToColon cs = joinColon ([] :: h1 :: t)
        rw [hdc, ih]
        rfl

theorem mem_joinColon (l : List (List Char)) (c : Char) (hc : c ∈ joinColon l) :
    c = ':' ∨ ∃ x ∈ l, c ∈ x := by
  induction l with
  | nil => simp [joinColon] at hc
  | cons x xs ih =>
    cases xs with
    | nil =>
      simp only [joinColon] at hc
      exact Or.inr ⟨x, by simp, hc⟩
    | cons y ys =>
      simp only [joinColon] at hc
      rcases List.mem_append.mp hc with h | h
      · exact Or.inr ⟨x, by simp, h⟩
      · rcases List.mem_cons.mp h with h | h
        · exact Or.inl h
        · rcases ih h with h | ⟨z, hz, hcz⟩
          · exact Or.inl h
          · exact Or.inr ⟨z, List.mem_cons_of_mem x hz, hcz⟩

theorem trimWs_subset (cs : List Char) (c : Char) (hc : c ∈ trimWs cs) : c ∈ cs := by
  simp only [trimWs] at hc
  rw [List.mem_reverse] at hc
  have h1 := (List.dropWhile_sublist (l := (cs.dropWhile isWs).reverse) (p := isWs)).subset hc
  rw [List.mem_reverse] at h1
  exact (List.dropWhile_sublist (l := cs) (p := isWs)).subset h1

theorem findValue_eq_some (lines : List String) (label v : String)
    (h : findValue lines label = some v) :
    ∃ line p0 r rs, lines.find? (fun l => jsIncludes (jsLower l) label) = some line ∧
      splitOnPred isSep line.data = p0 :: r :: rs ∧
      v = jsTrim ⟨joinColon (r :: rs)⟩ := by
  rcases hf : lines.find? (fun l => jsIncludes (jsLower l) label) with _ | line
  · simp [findValue, hf] at h
  · rcases hsp : splitOnPred isSep line.data with _ | ⟨p0, rest⟩
    · exact absurd hsp (splitOnPred_ne_nil _ _)
    · cases rest with
      | nil => simp [findValue, hf, hsp] at h
      | cons r rs =>
        simp only [findValue, hf, hsp, List.isEmpty_cons, Bool.false_eq_true, if_false,
          Option.some.injEq] at h
        exact ⟨line, p0, r, rs, rfl, hsp, h.symm⟩

theorem findValue_no_minus (lines : List String) (label v : String)
    (h : findValue lines label = some v) : '-' ∉ v.data := by
  obtain ⟨line, p0, r, rs, _, hsp, hv⟩ := findValue_eq_some lines label v h
  intro hmem
  rw [hv] at hmem
  have h1 : '-' ∈ joinColon (r :: rs) := trimWs_subset _ _ hmem
  rcases mem_joinColon _ _ h1 with hcolon | ⟨x, hx, hcx⟩
  · exact absurd hcolon (by decide)
  · have hns := mem_splitOnPred_not isSep line.data x
      (hsp ▸ List.mem_cons_of_mem p0 hx) '-' hcx
    exact absurd hns (by decide)

theorem jsOrS_eq_some (a b : Option String) (v : String) (h : jsOrS a b = some v) :
    a = some v ∨ b = some v := by
  cases a with
  | none => exact Or.inr h
  | some s =>
    simp only [jsOrS] at h
    by_cases hs : (s == "") = true
    · rw [if_pos hs] at h; exact Or.inr h
    · rw [if_neg hs] at h; exact Or.inl h

theorem parseAmount_eq (v : Option String) (n : JsNum) (h : parseAmount v = some n) :
    ∃ s, v = some s ∧
      n = parseFloatM ⟨s.data.filter (fun c => c.isDigit || c == '.' || c == '-')⟩ ∧
      n.isNaN = false := by
  cases v with
  | none => exact absurd h (by simp [parseAmount])
  | some s =>
    simp only [parseAmount] at h
    by_cases he : (s == "") = true
    · rw [if_pos he] at h; exact absurd h (by simp)
    · rw [if_neg he] at h
      by_cases hn :
          (parseFloatM ⟨s.data.filter fun c => c.isDigit || c == '.' || c == '-'⟩).isNaN = true
      · rw [if_pos hn] at h; exact absurd h (by simp)
      · rw [if_neg hn] at h
        cases h
        exact ⟨s, rfl, rfl, Bool.not_eq_true _ |>.mp hn⟩

theorem parseFloatM_nonneg (s : String) (h : '-' ∉ s.data) :
    parseFloatM s = JsNum.nan ∨ (parseFloatM s).Nonneg := by
  have hneg : (s.data.headD ' ' == '-') = false := by
    cases hd : s.data with
    | nil => rfl
    | cons c cs =>
      have hc : c ≠ '-' := by
        intro hceq
        exact h (hd ▸ hceq ▸ List.mem_cons_self c cs)
      simp only [List.headD]
      exact beq_eq_false_iff_ne.mpr hc
  simp only [parseFloatM, hneg, Bool.false_or]
  split
  · split
    · exact Or.inl rfl
    · split
      · exact Or.inr rfl
      · simp only [Bool.false_eq_true, if_false]
        exact Or.inr (Rat.mkRat_nonneg (by positivity) _)
  · split
    · exact Or.inl rfl
    · split
      · exact Or.inr rfl
      · simp only [Bool.false_eq_true, if_false]
        exact Or.inr (Rat.mkRat_nonneg (by positivity) _)

/-- Claim C7: whenever the heuristic extractor yields an amount, that amount
is not negative: every `-` of the source line is a split separator, so the
re-joined raw value and hence the cleaned numeric string contain no minus
sign, and `parseFloat` of an unsigned literal is nonnegative. -/
theorem heuristic_amount_nonneg (dateFn : String → Option String) (text : String)
    (n : JsNum) (h : (simpleExtract dateFn text).amount = some n) : n.Nonneg := by
  simp only [simpleExtract] at h
  by_cases ht : (text == "") = true
  · rw [if_pos ht] at h
    exact absurd h (by simp)
  · rw [if_neg ht] at h
    obtain ⟨s, hs, hn, hnan⟩ := parseAmount_eq _ _ h
    have hnm : '-' ∉ s.data := by
      rcases jsOrS_eq_some _ _ _ hs with h1 | h1
      · exact findValue_no_minus _ _ _ h1
      · rcases jsOrS_eq_some _ _ _ h1 with h2 | h2
        · exact findValue_no_minus _ _ _ h2
        · exact findValue_no_minus _ _ _ h2
    have hfil : '-' ∉ (s.data.filter (fun c => c.isDigit || c == '.' || c == '-')) :=
      fun hmem => hnm (List.mem_of_mem_filter hmem)
    rcases parseFloatM_nonneg ⟨s.data.filter (fun c => c.isDigit || c == '.' || c == '-')⟩
        hfil with hnan2 | hok
    · rw [hn, hnan2] at hnan
      exact absurd hnan (by simp [JsNum.isNaN])
    · rw [hn]
      exact hok

/-- Witness for C7: a line whose amount is introduced by the `-` separator
still yields a nonnegative amount. -/
theorem heuristic_amount_nonneg_w :
    (simpleExtract (fun _ => none) "Balance - 42").amount = some (JsNum.num 42) ∧
    JsNum.Nonneg (JsNum.num 42) :=
  ⟨by decide, heuristic_amount_nonneg (fun _ => none) "Balance - 42" _ (by decide)⟩

theorem dropWhile_ne_colon_append (p0 : List Char) (h : ∀ c ∈ p0, c ≠ ':')
    (X : List Char) :
    (p0 ++ ':' :: X).dropWhile (fun c => c != ':') = ':' :: X := by
  induction p0 with
  | nil => simp [List.dropWhile]
  | cons c cs ih =>
    have hc : c ≠ ':' := h c (List.mem_cons_self c cs)
    have hcb : (c != ':') = true := by
      simp only [bne_iff_ne, ne_eq]
      exact hc
    simp only [List.cons_append, List.dropWhile, hcb]
    exact ih fun d hd => h d (List.mem_cons_of_mem c hd)

/-- Claim C5 counterexample: for the line `"Supplier: Acme-Corp Ltd"`, whose
value contains an internal `-`, the extractor yields `"Acme:Corp Ltd"` — the
internal separator is replaced by `:` by the split/re-join — while the claim
predicts the remainder of the line intact, `"Acme-Corp Ltd"`. -/
theorem find_value_cex :
    findValue ["Supplier: Acme-Corp Ltd"] "supplier" = some "Acme:Corp Ltd" ∧
    specRawValue "Supplier: Acme-Corp Ltd" = some "Acme-Corp Ltd" ∧
    ("Acme:Corp Ltd" : String) ≠ "Acme-Corp Ltd" := by decide

/-- Claim C5 amended: for every line matched by the heuristic extractor, the
raw field value is everything after the first `:` or `-` separator with
every later separator (either kind) replaced by `:`, trimmed — not with the
internal separators intact. -/
theorem find_value_sep_replaced (lines : List String) (label v : String)
    (h : findValue lines label = some v) :
    ∃ line, lines.find? (fun l => jsIncludes (jsLower l) label) = some line ∧
      line.data.any isSep = true ∧
      v = jsTrim ⟨afterFirstColon (line.data.map sepToColon)⟩ := by
  obtain ⟨line, p0, r, rs, hf, hsp, hv⟩ := findValue_eq_some lines label v h
  refine ⟨line, hf, ?_, ?_⟩
  · by_contra hany
    have hall : ∀ c ∈ line.data, isSep c = false := by
      intro c hc
      have h1 : line.data.any isSep = false := by
        cases h2 : line.data.any isSep
        · rfl
        · exact absurd h2 hany
      rw [List.any_eq_false] at h1
      exact Bool.eq_false_iff.mpr (h1 c hc)
    have := splitOnPred_all_false isSep line.data hall
    rw [hsp] at this
    simp at this
  · have hmap : line.data.map sepToColon = p0 ++ ':' :: joinColon (r :: rs) := by
      rw [map_sepToColon_eq, hsp]
      rfl
    have hp0 : ∀ c ∈ p0, c ≠ ':' := by
      intro c hc hceq
      have := mem_splitOnPred_not isSep line.data p0
        (hsp ▸ List.mem_cons_self p0 (r :: rs)) c hc
      rw [hceq] at this
      exact absurd this (by decide)
    rw [hv]
    simp only [afterFirstColon, hmap, dropWhile_ne_colon_append p0 hp0, List.tail]

/-- Witness for the amended C5 at the counterexample line: the produced
value is the after-first-separator text with separators replaced by `:`. -/
theorem find_value_sep_replaced_w :
    ∃ line,
      (["Supplier: Acme-Corp Ltd"].find?
        (fun l => jsIncludes (jsLower l) "supplier")) = some line ∧
      line.data.any isSep = true ∧
      ("Acme:Corp Ltd" : String) = jsTrim ⟨afterFirstColon (line.data.map sepToColon)⟩ :=
  find_value_sep_replaced ["Supplier: Acme-Corp Ltd"] "supplier" "Acme:Corp Ltd" (by decide)

/-! ## Store lemmas -/

theorem find?_map_id_preserving (l : List DbRow) (id : Nat) (f : DbRow → DbRow)
    (hf : ∀ r, (f r).id = r.id) :
    (l.map f).find? (fun r => r.id == id) = (l.find? (fun r => r.id == id)).map f := by
  rw [List.find?_map]
  have hcomp : ((fun r : DbRow => r.id == id) ∘ f) = fun r : DbRow => r.id == id := by
    funext r
    simp [Function.comp, hf]
  rw [hcomp]

/-- Example rows and store for the concrete witnesses. -/
def exRow1 : DbRow :=
  { id := 1, supplier := some "Aurora Marketing", status := some "Upcoming"
    amount := some (.num 3100), archived := JsNum.num 0 }

def exRow2 : DbRow :=
  { id := 2, supplier := some "BrightHire", status := some "Paid"
    amount := some (.num 1840), archived := JsNum.num 0 }

def exDb : Db := { rows := [exRow1, exRow2], nextId := 3 }

/-- Claim C10: `markInvoicePaid` and `archiveInvoice` return `null` and
leave the store unchanged when the id is absent; when it is present they
return the updated row, keep the id sequence and the number of rows, and
rewrite each row position to the identical row except that the targeted
invoice gets exactly its status (resp. its archived flag) replaced. -/
theorem paid_archive_frame :
    (∀ (db : Db) (id : Nat), findInvoiceById db id = none →
        markInvoicePaid db id = (none, db) ∧ archiveInvoice db id = (none, db)) ∧
    (∀ (db : Db) (id : Nat) (r : DbRow), findInvoiceById db id = some r →
        (markInvoicePaid db id).1 = some { r with status := some "Paid" } ∧
        (archiveInvoice db id).1 = some { r with archived := JsNum.num 1 } ∧
        (markInvoicePaid db id).2.nextId = db.nextId ∧
        (archiveInvoice db id).2.nextId = db.nextId ∧
        (markInvoicePaid db id).2.rows.length = db.rows.length ∧
        (archiveInvoice db id).2.rows.length = db.rows.length ∧
        (∀ (i : Nat) (r₀ : DbRow), db.rows[i]? = some r₀ →
          (markInvoicePaid db id).2.rows[i]? =
            some (if r₀.id = id then { r₀ with status := some "Paid" } else r₀) ∧
          (archiveInvoice db id).2.rows[i]? =
            some (if r₀.id = id then { r₀ with archived := JsNum.num 1 } else r₀))) := by
  constructor
  · intro db id h
    constructor
    · simp [markInvoicePaid, h]
    · simp [archiveInvoice, h]
  · intro db id r h
    have hfd : db.rows.find? (fun r₀ : DbRow => r₀.id == id) = some r := h
    have hid : r.id = id := by simpa using List.find?_some hfd
    have hmk1 : (markInvoicePaid db id).1 = some { r with status := some "Paid" } := by
      simp only [markInvoicePaid, h, findInvoiceById]
      rw [find?_map_id_preserving db.rows id _ (fun r₀ => by split <;> rfl)]
      rw [show List.find? (fun r₀ : DbRow => r₀.id == id) db.rows = some r from h]
      simp [hid]
    have har1 : (archiveInvoice db id).1 = some { r with archived := JsNum.num 1 } := by
      simp only [archiveInvoice, h, findInvoiceById]
      rw [find?_map_id_preserving db.rows id _ (fun r₀ => by split <;> rfl)]
      rw [show List.find? (fun r₀ : DbRow => r₀.id == id) db.rows = some r from h]
      simp [hid]
    refine ⟨hmk1, har1, ?_, ?_, ?_, ?_, ?_⟩
    · simp [markInvoicePaid, h]
    · simp [archiveInvoice, h]
    · simp [markInvoicePaid, h]
    · simp [archiveInvoice, h]
    · intro i r₀ h0
      constructor
      · simp only [markInvoicePaid, h, List.getElem?_map, h0, Option.map_some]
        by_cases hid0 : r₀.id = id <;> simp [hid0]
      · simp only [archiveInvoice, h, List.getElem?_map, h0, Option.map_some]
        by_cases hid0 : r₀.id = id <;> simp [hid0]

/-- Witness for C10 at a concrete store: updating a present id returns the
updated row, an absent id returns `null` and leaves the store as it was. -/
theorem paid_archive_frame_w :
    findInvoiceById exDb 1 = some exRow1 ∧
    (markInvoicePaid exDb 1).1 = some { exRow1 with status := some "Paid" } ∧
    (archiveInvoice exDb 1).1 = some { exRow1 with archived := JsNum.num 1 } ∧
    markInvoicePaid exDb 99 = (none, exDb) :=
  ⟨by decide, (paid_archive_frame.2 exDb 1 exRow1 (by decide)).1,
   (paid_archive_frame.2 exDb 1 exRow1 (by decide)).2.1,
   (paid_archive_frame.1 exDb 99 (by decide)).1⟩

/-- All rows carrying the given id are archived. -/
def HiddenAt (id : Nat) (db : Db) : Prop :=
  ∀ r ∈ db.rows, r.id = id → r.archived = JsNum.num 1

theorem applyOp_preserves (id : Nat) (db : Db) (op : DbOp)
    (hwf : db.Wf) (hlt : id < db.nextId) (hh : HiddenAt id db) :
    (applyOp db op).Wf ∧ id < (applyOp db op).nextId ∧ HiddenAt id (applyOp db op) := by
  cases op with
  | markPaid i =>
    simp only [applyOp, markInvoicePaid]
    cases hf : findInvoiceById db i with
    | none => exact ⟨hwf, hlt, hh⟩
    | some r0 =>
      refine ⟨?_, hlt, ?_⟩
      · intro r hr
        rcases List.mem_map.mp hr with ⟨r₀, hr₀, rfl⟩
        have : (if r₀.id == i then { r₀ with status := some "Paid" } else r₀).id = r₀.id := by
          split <;> rfl
        rw [this]
        exact hwf r₀ hr₀
      · intro r hr hrid
        rcases List.mem_map.mp hr with ⟨r₀, hr₀, rfl⟩
        by_cases h0 : (r₀.id == i) = true
        · rw [if_pos h0] at hrid ⊢
          exact hh r₀ hr₀ hrid
        · rw [if_neg h0] at hrid ⊢
          exact hh r₀ hr₀ hrid
  | archive i =>
    simp only [applyOp, archiveInvoice]
    cases hf : findInvoiceById db i with
    | none => exact ⟨hwf, hlt, hh⟩
    | some r0 =>
      refine ⟨?_, hlt, ?_⟩
      · intro r hr
        rcases List.mem_map.mp hr with ⟨r₀, hr₀, rfl⟩
        have : (if r₀.id == i then { r₀ with archived := JsNum.num 1 } else r₀).id = r₀.id := by
          split <;> rfl
        rw [this]
        exact hwf r₀ hr₀
      · intro r hr hrid
        rcases List.mem_map.mp hr with ⟨r₀, hr₀, rfl⟩
        by_cases h0 : (r₀.id == i) = true
        · rw [if_pos h0] at hrid ⊢
        · rw [if_neg h0] at hrid ⊢
          exact hh r₀ hr₀ hrid
  | insert inv =>
    simp only [applyOp, insertInvoice]
    refine ⟨?_, Nat.lt_succ_of_lt hlt, ?_⟩
    · intro r hr
      rcases List.mem_append.mp hr with h | h
      · exact Nat.lt_succ_of_lt (hwf r h)
      · rcases List.mem_singleton.mp h with rfl
        exact Nat.lt_succ_self _
    · intro r hr hrid
      rcases List.mem_append.mp hr with h | h
      · exact hh r h hrid
      · rcases List.mem_singleton.mp h with rfl
        exact absurd (hrid ▸ hlt) (Nat.lt_irrefl _)

theorem execOps_preserves (id : Nat) (ops : List DbOp) (db : Db)
    (h : db.Wf ∧ id < db.nextId ∧ HiddenAt id db) :
    (execOps db ops).Wf ∧ id < (execOps db ops).nextId ∧ HiddenAt id (execOps db ops) := by
  induction ops generalizing db with
  | nil => exact h
  | cons op ops ih =>
    exact ih (applyOp db op) (applyOp_preserves id db op h.1 h.2.1 h.2.2)

/-- Claim C9: `getInvoices` returns exactly the stored rows whose archived
flag is `0`; and once `archiveInvoice` succeeds for an id over a well-formed
store, no later sequence of store operations makes that id appear in a
`getInvoices` result again. -/
theorem archived_stays_hidden :
    (∀ (db : Db) (r : DbRow), r ∈ getInvoices db ↔ r ∈ db.rows ∧ r.archived = JsNum.num 0) ∧
    (∀ (db : Db) (id : Nat), db.Wf →
      ∀ (res : DbRow) (db' : Db), archiveInvoice db id = (some res, db') →
        ∀ (ops : List DbOp) (r : DbRow),
          r ∈ getInvoices (execOps db' ops) → r.id ≠ id) := by
  constructor
  · intro db r
    simp [getInvoices, List.mem_filter]
  · intro db id hwf res db' harch ops r hr
    rcases hfind : findInvoiceById db id with _ | r0
    · rw [archiveInvoice, hfind] at harch
      simp at harch
    · have hfd : db.rows.find? (fun r₀ : DbRow => r₀.id == id) = some r0 := hfind
      simp only [archiveInvoice, hfind] at harch
      rw [Prod.mk.injEq] at harch
      obtain ⟨hres, hdb'⟩ := harch
      subst hdb'
      have hr0mem : r0 ∈ db.rows := List.mem_of_find?_eq_some hfd
      have hr0id : r0.id = id := by simpa using List.find?_some hfd
      have hwf' : Db.Wf ⟨db.rows.map (fun r₀ => if r₀.id == id then { r₀ with archived := JsNum.num 1 } else r₀), db.nextId⟩ := by
        intro r1 hr1
        rcases List.mem_map.mp hr1 with ⟨r₀, hr₀, rfl⟩
        have hpid : (if r₀.id == id then { r₀ with archived := JsNum.num 1 } else r₀).id
            = r₀.id := by
          split <;> rfl
        rw [hpid]
        exact hwf r₀ hr₀
      have hhid : HiddenAt id ⟨db.rows.map (fun r₀ => if r₀.id == id then { r₀ with archived := JsNum.num 1 } else r₀), db.nextId⟩ := by
        intro r1 hr1 hrid
        rcases List.mem_map.mp hr1 with ⟨r₀, hr₀, rfl⟩
        by_cases h0 : (r₀.id == id) = true
        · rw [if_pos h0] at hrid ⊢
        · rw [if_neg h0] at hrid ⊢
          exact absurd (beq_iff_eq.mpr hrid) h0
      have hfinal := execOps_preserves id ops _ ⟨hwf', hr0id ▸ hwf r0 hr0mem, hhid⟩
      intro hreq
      have hmem : r ∈ (execOps ⟨db.rows.map (fun r₀ => if r₀.id == id then { r₀ with archived := JsNum.num 1 } else r₀), db.nextId⟩ ops).rows ∧ r.archived = JsNum.num 0 := by
        simpa [getInvoices, List.mem_filter] using hr
      have h1 := hfinal.2.2 r hmem.1 hreq
      rw [hmem.2] at h1
      exact absurd h1 (by decide)

/-- Witness for C9 at a concrete store: the store is well-formed, archiving
id 1 succeeds, and after a further insert the archived invoice's id is gone
from `getInvoices` — here checked through the listed row `exRow2`. -/
theorem archived_stays_hidden_w :
    exDb.Wf ∧ exRow2.id ≠ 1 :=
  ⟨by decide,
   archived_stays_hidden.2 exDb 1 (by decide) { exRow1 with archived := JsNum.num 1 }
     (archiveInvoice exDb 1).2 (by decide) [DbOp.insert {}] exRow2 (by decide)⟩

end Cashflow
